import Mathlib

/-!
Verification of the PFX/P12 viewer's certificate-extraction core
(`src/pfxEditorProvider.ts`) against its natural-language specification.

The TypeScript source is shallowly embedded below: pure functions become
Lean functions, JavaScript `Date` values become integer Unix-millisecond
timestamps, JavaScript strings become Lean `String`/`List Char`, and the
node-forge library surface that `parsePfx` consumes (the ASN.1/PKCS#12
decode step and the bag lists it returns) is modelled as an explicit input
(`ForgeResult`), since a thrown forge error is consumed by `parsePfx`'s
`catch` block only through its message string.
-/

namespace PfxView

/-! ## JavaScript string primitives -/

/-- Embeds JavaScript `String.prototype.toLowerCase` on the ASCII strings
the parser inspects (error messages). -/
def toLowerL (l : List Char) : List Char := l.map Char.toLower

/-- `startsWithL pat l` is true when `pat` is an initial run of `l`;
the building block for substring search. -/
def startsWithL : List Char → List Char → Bool
  | [], _ => true
  | _ :: _, [] => false
  | p :: ps, c :: cs => p == c && startsWithL ps cs

/-- Embeds JavaScript `String.prototype.includes`: `pat` occurs
contiguously somewhere in `l`. -/
def containsSub (pat : List Char) : List Char → Bool
  | [] => startsWithL pat []
  | c :: cs => startsWithL pat (c :: cs) || containsSub pat cs

/-! ## SHA-1 (the `forge.md.sha1` digest used for thumbprints)

A direct executable embedding of SHA-1 over byte lists, with 32-bit
machine words represented as `Nat` reduced `% 4294967296`. -/

/-- Two to the 32nd: the word modulus of SHA-1 arithmetic. -/
def M32 : Nat := 4294967296

/-- Left rotation of a 32-bit word. -/
def rotl (n x : Nat) : Nat := ((x <<< n) ||| (x >>> (32 - n))) % M32

/-- Big-endian 8-byte encoding of the message bit length. -/
def len64Bytes (n : Nat) : List Nat :=
  [(n >>> 56) % 256, (n >>> 48) % 256, (n >>> 40) % 256, (n >>> 32) % 256,
   (n >>> 24) % 256, (n >>> 16) % 256, (n >>> 8) % 256, n % 256]

/-- SHA-1 padding: append 0x80, zero-pad to 56 mod 64, append the
64-bit big-endian bit length. -/
def padMsg (msg : List Nat) : List Nat :=
  let z := (120 - ((msg.length + 1) % 64)) % 64
  msg ++ [128] ++ List.replicate z 0 ++ len64Bytes (msg.length * 8)

/-- Splits the padded message into 64-byte blocks. -/
def chunks64 (l : List Nat) : List (List Nat) :=
  if h : l = [] then [] else
    l.take 64 :: chunks64 (l.drop 64)
termination_by l.length
decreasing_by
  simp only [List.length_drop]
  have : 0 < l.length := List.length_pos.mpr h
  omega

/-- Packs bytes into big-endian 32-bit words (16 words per block). -/
def toWords : List Nat → List Nat
  | b0 :: b1 :: b2 :: b3 :: rest =>
      (((b0 * 256 + b1) * 256 + b2) * 256 + b3) :: toWords rest
  | _ => []

/-- Message-schedule extension, carried with the most recent word first:
each step prepends `rotl 1 (w[i-3] xor w[i-8] xor w[i-14] xor w[i-16])`. -/
def extendRev (rw : List Nat) : Nat → List Nat
  | 0 => rw
  | k + 1 =>
      extendRev
        (rotl 1 (rw.getD 2 0 ^^^ rw.getD 7 0 ^^^ rw.getD 13 0 ^^^ rw.getD 15 0) :: rw)
        k

/-- The 80-entry message schedule of one block, in order. -/
def schedule (chunk : List Nat) : List Nat :=
  (extendRev (toWords chunk).reverse 64).reverse

/-- The SHA-1 five-word working state. -/
abbrev Sha1State := Nat × Nat × Nat × Nat × Nat

/-- One of the 80 SHA-1 rounds; `i` is the round index selecting the
round function and constant. -/
def sha1Round (st : Sha1State) (iw : Nat × Nat) : Sha1State :=
  let (a, b, c, d, e) := st
  let (i, w) := iw
  let f :=
    if i < 20 then (b &&& c) ||| ((b ^^^ 4294967295) &&& d)
    else if i < 40 then b ^^^ c ^^^ d
    else if i < 60 then (b &&& c) ||| (b &&& d) ||| (c &&& d)
    else b ^^^ c ^^^ d
  let k :=
    if i < 20 then 1518500249
    else if i < 40 then 1859775393
    else if i < 60 then 2400959708
    else 3395469782
  let temp := (rotl 5 a + f + e + k + w) % M32
  (temp, a, rotl 30 b, c, d)

/-- Processes one 64-byte block, updating the running hash state. -/
def processChunk (h : Sha1State) (chunk : List Nat) : Sha1State :=
  let (h0, h1, h2, h3, h4) := h
  let (a, b, c, d, e) := (schedule chunk).enum.foldl sha1Round (h0, h1, h2, h3, h4)
  ((h0 + a) % M32, (h1 + b) % M32, (h2 + c) % M32, (h3 + d) % M32, (h4 + e) % M32)

/-- Big-endian 4-byte rendering of one hash word. -/
def w4 (x : Nat) : List Nat :=
  [(x >>> 24) % 256, (x >>> 16) % 256, (x >>> 8) % 256, x % 256]

/-- Serialises the final state to the 20 digest bytes. -/
def outputBytes (st : Sha1State) : List Nat :=
  let (h0, h1, h2, h3, h4) := st
  w4 h0 ++ w4 h1 ++ w4 h2 ++ w4 h3 ++ w4 h4

/-- SHA-1 of a byte list: the 20-byte digest. -/
def sha1 (msg : List Nat) : List Nat :=
  outputBytes
    ((chunks64 (padMsg msg)).foldl processChunk
      (1732584193, 4023233417, 2562383102, 271733878, 3285377520))

/-! ## Hex rendering (forge's `toHex` plus `toUpperCase`) -/

/-- The lower-case hex digit table. -/
def hexDigitsLower : List Char := "0123456789abcdef".toList

/-- One hex digit of a nibble. -/
def hexDigitChar (n : Nat) : Char := hexDigitsLower.getD (n % 16) '0'

/-- Two-digit hex rendering of one byte, as `forge.util` produces. -/
def byteHex (b : Nat) : List Char := [hexDigitChar (b / 16), hexDigitChar b]

/-- Lower-case hex rendering of a byte list. -/
def bytesToHexL (bs : List Nat) : List Char := bs.flatMap byteHex

/-- The thumbprint string of a certificate's re-encoded DER bytes:
`forge.md.sha1` digest, hex-encoded, upper-cased
(source lines 272-276). -/
def thumbprintOfDer (der : List Nat) : String :=
  String.mk ((bytesToHexL (sha1 der)).map Char.toUpper)

/-! ## Data model

The forge-side records enumerate exactly the fields the embedded code
reads. JavaScript `Date` instants are Unix milliseconds (`Int`);
`undefined`-able fields are `Option`. -/

/-- One attribute of a forge distinguished name
(`cert.subject.attributes` / `cert.issuer.attributes`). -/
structure NameAttr where
  shortName : Option String
  name : Option String
  attrType : Option String
  value : String
  deriving DecidableEq

/-- One `subjectAltName` entry (`ext.altNames`): a GeneralName type tag
and its string value. -/
structure AltName where
  ty : Int
  value : String
  deriving DecidableEq

/-- A JavaScript extension value as the code discriminates it:
a string, or some other (truthy) value carried together with its
`JSON.stringify` rendering. -/
inductive JsVal where
  | str (s : String)
  | other (stringified : String)
  deriving DecidableEq

/-- A forge certificate extension, with the fields the branches of the
extraction loop read (source lines 312-353). -/
structure ForgeExt where
  name : Option String
  id : String
  altNames : Option (List AltName)
  digitalSignature : Bool
  keyEncipherment : Bool
  dataEncipherment : Bool
  keyAgreement : Bool
  keyCertSign : Bool
  cRLSign : Bool
  serverAuth : Bool
  clientAuth : Bool
  codeSigning : Bool
  emailProtection : Bool
  timeStamping : Bool
  cA : Bool
  pathLenConstraint : Option Int
  value : Option JsVal
  deriving DecidableEq

/-- A forge certificate as `extractCertInfo` consumes it.
`publicKeyBits` is `pubKey.n.bitLength()` when an RSA public key is
readable; `reencodedDer` is
`forge.asn1.toDer(forge.pki.certificateToAsn1(cert)).getBytes()`,
the re-encoded canonical DER byte sequence. -/
structure ForgeCert where
  subjectAttributes : List NameAttr
  issuerAttributes : List NameAttr
  serialNumber : String
  notBefore : Int
  notAfter : Int
  publicKeyBits : Option Nat
  signatureOid : String
  extensions : List ForgeExt
  reencodedDer : List Nat
  deriving DecidableEq

/-- The display-oriented record built per certificate (interface
`CertificateInfo`). `subject`/`issuer` are insertion-ordered JS objects,
embedded as association lists with in-place overwrite. -/
structure CertificateInfo where
  subject : List (String × String)
  issuer : List (String × String)
  serialNumber : String
  validFrom : Int
  validTo : Int
  thumbprint : String
  signatureAlgorithm : String
  publicKeyInfo : String
  extensions : List (String × String)
  isExpired : Bool
  daysUntilExpiry : Int
  deriving DecidableEq

/-- A key bag as returned by `p12.getBags`: `key` is
`some bits` (the RSA modulus bit length) when forge decoded a private
key, `none` when the key stayed encrypted/undecoded. -/
structure KeyBag where
  key : Option Nat
  deriving DecidableEq

/-- A certificate bag as returned by `p12.getBags`: `cert` is present
when the bag held a decodable X.509 certificate. -/
structure CertBag where
  cert : Option ForgeCert
  deriving DecidableEq

/-- The bag lists `parsePfx` asks forge for, in the container's bag
order: `certBag`, `pkcs8ShroudedKeyBag` and plain `keyBag` types. -/
structure Pkcs12Bags where
  certBags : List CertBag
  shroudedKeyBags : List KeyBag
  plainKeyBags : List KeyBag
  deriving DecidableEq

/-- Outcome of the forge decode pipeline feeding `parsePfx`
(`forge.asn1.fromDer` then `forge.pkcs12.pkcs12FromAsn1`): either the
parsed container's bags, or a thrown error's message string. -/
inductive ForgeResult where
  | ok (p12 : Pkcs12Bags)
  | err (msg : String)
  deriving DecidableEq

/-- The result record of `parsePfx` (interface `PfxContents`). -/
structure PfxContents where
  certificates : List CertificateInfo
  hasPrivateKey : Bool
  privateKeyInfo : Option String
  error : Option String
  deriving DecidableEq

/-! ## extractCertInfo -/

/-- JavaScript truthiness of an optional string: `undefined` and the
empty string are falsy. -/
def jsTruthyS (o : Option String) : Bool :=
  match o with
  | none => false
  | some s => !(s == "")

/-- The key under which an attribute is stored:
`attr.shortName || attr.name || attr.type || 'unknown'`
(source lines 262, 268). -/
def resolvedAttrName (a : NameAttr) : String :=
  if jsTruthyS a.shortName then a.shortName.getD ("")
  else if jsTruthyS a.name then a.name.getD ("")
  else if jsTruthyS a.attrType then a.attrType.getD ("")
  else ("unknown")

/-- JS object property assignment `obj[k] = v`: overwrite in place when
the key exists, append otherwise (insertion order is preserved). -/
def objInsert (m : List (String × String)) (k v : String) : List (String × String) :=
  match m with
  | [] => [(k, v)]
  | (k', v') :: rest => if k' = k then (k, v) :: rest else (k', v') :: objInsert rest k v

/-- The subject/issuer projection loop: assign each attribute's value
under its resolved name, in attribute order (source lines 261-270). -/
def buildNameMap (attrs : List NameAttr) : List (String × String) :=
  attrs.foldl (fun m a => objInsert m (resolvedAttrName a) a.value) []

/-- The signature-OID friendly-name table (source lines 298-306). -/
def sigOidMap : List (String × String) :=
  [("1.2.840.113549.1.1.5", "SHA-1 with RSA"),
   ("1.2.840.113549.1.1.11", "SHA-256 with RSA"),
   ("1.2.840.113549.1.1.12", "SHA-384 with RSA"),
   ("1.2.840.113549.1.1.13", "SHA-512 with RSA"),
   ("1.2.840.10045.4.3.2", "ECDSA with SHA-256"),
   ("1.2.840.10045.4.3.3", "ECDSA with SHA-384"),
   ("1.2.840.10045.4.3.4", "ECDSA with SHA-512")]

/-- Rendering of one `subjectAltName` entry: type 2 is DNS, type 7 is
IP, anything else passes through raw (source lines 318-322). -/
def renderAltName (an : AltName) : String :=
  if an.ty = 2 then ("DNS: " ++ an.value)
  else if an.ty = 7 then ("IP: " ++ an.value)
  else an.value

/-- The `keyUsage` capability list (source lines 324-331). -/
def keyUsageList (e : ForgeExt) : List String :=
  (if e.digitalSignature then ["Digital Signature"] else []) ++
  (if e.keyEncipherment then ["Key Encipherment"] else []) ++
  (if e.dataEncipherment then ["Data Encipherment"] else []) ++
  (if e.keyAgreement then ["Key Agreement"] else []) ++
  (if e.keyCertSign then ["Certificate Signing"] else []) ++
  (if e.cRLSign then ["CRL Signing"] else [])

/-- The `extKeyUsage` purpose list (source lines 333-339). -/
def extKeyUsageList (e : ForgeExt) : List String :=
  (if e.serverAuth then ["Server Authentication"] else []) ++
  (if e.clientAuth then ["Client Authentication"] else []) ++
  (if e.codeSigning then ["Code Signing"] else []) ++
  (if e.emailProtection then ["Email Protection"] else []) ++
  (if e.timeStamping then ["Time Stamping"] else [])

/-- The interpreted (pre-fallback) value of one extension: the branch
chain of the extraction loop (source lines 315-346). -/
def extValueString (e : ForgeExt) : String :=
  if e.name == some ("subjectAltName") && e.altNames.isSome then
    String.intercalate (", ") (((e.altNames.getD []).map renderAltName))
  else if e.name == some ("keyUsage") then
    String.intercalate (", ") (keyUsageList e)
  else if e.name == some ("extKeyUsage") then
    String.intercalate (", ") (extKeyUsageList e)
  else if e.name == some ("basicConstraints") then
    if e.cA then
      ("CA: true" ++
        (match e.pathLenConstraint with
         | some p => ", Path Length: " ++ toString p
         | none => ""))
    else ("CA: false")
  else
    match e.value with
    | some (.str s) => s
    | some (.other j) => j
    | none => "\"(complex value)\""

/-- One pushed extension entry: label `ext.name || ext.id`, value with
the `'(empty)'` fallback (source lines 348-351). -/
def extOne (e : ForgeExt) : String × String :=
  (if jsTruthyS e.name then e.name.getD ("") else e.id,
   if extValueString e == "" then ("(empty)") else extValueString e)

/-- The extension extraction loop: one entry pushed per extension, in
order (source lines 312-353). -/
def extractExtensions (exts : List ForgeExt) : List (String × String) :=
  exts.foldl (fun acc e => acc ++ [extOne e]) []

/-- Integer form of `Math.ceil(a / b)` for integer `a` and positive
integer `b` (the division in the source is real-valued; the equivalence
with the rational ceiling is proved below). -/
def ceilDiv (a b : Int) : Int := (a + b - 1) / b

/-- Embeds `extractCertInfo` (source lines 256-368): the projection of
one forge certificate into the display record, evaluated at instant
`now` (the source reads `new Date()` here). -/
def extractCertInfo (now : Int) (cert : ForgeCert) : CertificateInfo :=
  { subject := buildNameMap cert.subjectAttributes
    issuer := buildNameMap cert.issuerAttributes
    serialNumber := cert.serialNumber
    validFrom := cert.notBefore
    validTo := cert.notAfter
    thumbprint := thumbprintOfDer cert.reencodedDer
    signatureAlgorithm := (sigOidMap.lookup cert.signatureOid).getD cert.signatureOid
    publicKeyInfo :=
      match cert.publicKeyBits with
      | some n => "RSA " ++ toString n ++ " bits"
      | none => "Unknown"
    extensions := extractExtensions cert.extensions
    isExpired := decide (cert.notAfter < now)
    daysUntilExpiry := ceilDiv (cert.notAfter - now) 86400000 }

/-! ## parsePfx -/

/-- The catch-block password heuristic: the lowered error message
contains one of the four indicator substrings (source lines 233-236). -/
def isPasswordError (msg : String) : Bool :=
  containsSub ("invalid password".toList) (toLowerL msg.toList) ||
  containsSub ("mac".toList) (toLowerL msg.toList) ||
  containsSub ("pkcs12".toList) (toLowerL msg.toList) ||
  containsSub ("decrypt".toList) (toLowerL msg.toList)

/-- The password-centric error text (source line 241). -/
def invalidPasswordMessage : String :=
  "Invalid password or corrupted file. Please try again with the correct password."

/-- The generic failure text for a thrown message (source line 248). -/
def genericFailureMessage (msg : String) : String :=
  "Failed to parse PFX file: " ++ msg

/-- The private-key summary derived from a shrouded key bag
(source lines 203-210). -/
def shroudedBagInfo (kb : KeyBag) : String :=
  match kb.key with
  | some bits => "RSA " ++ toString bits ++ " bits"
  | none => "Private key present (encrypted)"

/-- One iteration of the certificate loop (source lines 183-193): a bag
holding a decodable certificate appends its extracted record, any other
bag is skipped. -/
def certPush (now : Int) (acc : List CertificateInfo) (bag : CertBag) : List CertificateInfo :=
  match bag.cert with
  | some c => acc ++ [extractCertInfo now c]
  | none => acc

/-- Embeds `parsePfx` (source lines 151-251) downstream of the forge
decode step: assembles certificates from the cert bags in order, then
the private-key summary from the first shrouded bag and then the first
plain key bag, or classifies a thrown error message. -/
def parsePfx (now : Int) (fr : ForgeResult) : PfxContents :=
  match fr with
  | .ok p12 =>
      let certificates := p12.certBags.foldl (certPush now) []
      let hasPrivateKey := false
      let privateKeyInfo : Option String := none
      let (hasPrivateKey, privateKeyInfo) :=
        match p12.shroudedKeyBags with
        | [] => (hasPrivateKey, privateKeyInfo)
        | kb :: _ => (true, some (shroudedBagInfo kb))
      let (hasPrivateKey, privateKeyInfo) :=
        match p12.plainKeyBags with
        | [] => (hasPrivateKey, privateKeyInfo)
        | kb :: _ =>
            (true,
             match kb.key with
             | some bits => some ("RSA " ++ toString bits ++ " bits")
             | none => privateKeyInfo)
      { certificates := certificates
        hasPrivateKey := hasPrivateKey
        privateKeyInfo := privateKeyInfo
        error := none }
  | .err msg =>
      if isPasswordError msg then
        { certificates := []
          hasPrivateKey := false
          privateKeyInfo := none
          error := some invalidPasswordMessage }
      else
        { certificates := []
          hasPrivateKey := false
          privateKeyInfo := none
          error := some (genericFailureMessage msg) }

/-! ## Rendering helpers under verification -/

/-- The status badge CSS class of `renderCertificate`
(source line 840). -/
def statusClassOf (c : CertificateInfo) : String :=
  if c.isExpired then ("expired")
  else if c.daysUntilExpiry ≤ 30 then ("expiring-soon")
  else ("valid")

/-- Single-character global replacement, as each chained
`String.prototype.replace(/x/g, rep)` call performs. -/
def replaceAllC (c : Char) (rep : List Char) (l : List Char) : List Char :=
  l.flatMap (fun x => if x = c then rep else [x])

/-- Embeds `escapeHtml` (source lines 975-982): the five chained global
replacements, ampersand first. -/
def escapeHtml (l : List Char) : List Char :=
  replaceAllC '\'' ("&#039;".toList)
    (replaceAllC '"' ("&quot;".toList)
      (replaceAllC '>' ("&gt;".toList)
        (replaceAllC '<' ("&lt;".toList)
          (replaceAllC '&' ("&amp;".toList) l))))

/-! ## Analysis helpers and spec-side definitions -/

/-- Per-character characterization of `escapeHtml` (proved equal to the
five chained passes below). -/
def escChar (x : Char) : List Char :=
  if x = '&' then ("&amp;".toList)
  else if x = '<' then ("&lt;".toList)
  else if x = '>' then ("&gt;".toList)
  else if x = '"' then ("&quot;".toList)
  else if x = '\'' then ("&#039;".toList)
  else [x]

/-- The five entities `escapeHtml` emits. -/
def entityStrings : List (List Char) :=
  ["&amp;".toList, "&lt;".toList, "&gt;".toList, "&quot;".toList, "&#039;".toList]

/-- True when the list begins with one of the five emitted entities. -/
def beginsEntity (l : List Char) : Bool :=
  entityStrings.any (fun e => startsWithL e l)

/-- Every ampersand in the list begins one of the five emitted
entities. -/
def ampOk : List Char → Bool
  | [] => true
  | c :: rest => (if c = '&' then beginsEntity (c :: rest) else true) && ampOk rest

/-- A character that cannot open or close markup: not a raw angle
bracket and not a raw quote. -/
def htmlSafeChar (c : Char) : Bool :=
  !(c == '<') && !(c == '>') && !(c == '"') && !(c == '\'')

/-- The upper-case hex digit alphabet. -/
def hexDigitsUpper : List Char := "0123456789ABCDEF".toList

/-- Follows the spec's words for claim C3: `expired` when `isExpired`,
`expiringSoon` when `0 < daysUntilExpiry ≤ 30`, else `valid`. -/
def specStatusBand (c : CertificateInfo) : String :=
  if c.isExpired then ("expired")
  else if 0 < c.daysUntilExpiry ∧ c.daysUntilExpiry ≤ 30 then ("expiring-soon")
  else ("valid")

/-- The amended classification bands matching the code: `expiringSoon`
on `0 ≤ daysUntilExpiry ≤ 30` (the code also shows the badge when the
certificate expires at the evaluation instant itself, day count 0). -/
def amendedStatusBand (c : CertificateInfo) : String :=
  if c.isExpired then ("expired")
  else if 0 ≤ c.daysUntilExpiry ∧ c.daysUntilExpiry ≤ 30 then ("expiring-soon")
  else ("valid")

/-- Follows the spec's words for claim C9: the best-effort raw
rendering of an uninterpreted extension value (string values pass
through, other values keep their `JSON.stringify` form, absent or empty
values degrade to placeholders, never to a dropped entry). -/
def rawRendering (v : Option JsVal) : String :=
  match v with
  | some (.str s) => if s == "" then ("(empty)") else s
  | some (.other j) => if j == "" then ("(empty)") else j
  | none => "\"(complex value)\""

/-- Modelled from the spec: the ASN.1 decode step that `parsePfx`
invokes first lives in node-forge, not under `src/`; per spec section 8
an empty byte buffer must fail the decode with a structural truncation
error, whose message (carrying none of the four password indicator
substrings) is modelled here. -/
def emptyBufferDecodeMessage : String := "Too few bytes to read ASN.1 value."

/-! ## Concrete fixtures for witnesses and counterexamples -/

/-- A minimal forge certificate whose `notAfter` is the given
instant. -/
def certValidTo (t : Int) : ForgeCert :=
  { subjectAttributes := []
    issuerAttributes := []
    serialNumber := ""
    notBefore := 0
    notAfter := t
    publicKeyBits := none
    signatureOid := ""
    extensions := []
    reencodedDer := [] }

/-- A container holding one shrouded key bag (2048-bit key) and one
plain key bag (1024-bit key). -/
def p12TwoKeyKinds : Pkcs12Bags :=
  { certBags := []
    shroudedKeyBags := [{ key := some 2048 }]
    plainKeyBags := [{ key := some 1024 }] }

/-- An extension with no recognized interpreter: forge left `name`
unset, only the dotted-decimal OID identifies it. -/
def extUnrecognized : ForgeExt :=
  { name := none
    id := "1.2.3.4.5"
    altNames := none
    digitalSignature := false
    keyEncipherment := false
    dataEncipherment := false
    keyAgreement := false
    keyCertSign := false
    cRLSign := false
    serverAuth := false
    clientAuth := false
    codeSigning := false
    emailProtection := false
    timeStamping := false
    cA := false
    pathLenConstraint := none
    value := none }

/-- The forge message raised when the PKCS#12 MAC check rejects the
supplied password (used as a concrete wrong-password failure). -/
def macFailureMessage : String :=
  "PKCS#12 MAC could not be verified. Invalid password?"

/-! ## General lemmas about the embedded operations -/

theorem certPush_foldl (now : Int) (bags : List CertBag) :
    ∀ acc : List CertificateInfo,
      bags.foldl (certPush now) acc
        = acc ++ (bags.filterMap CertBag.cert).map (extractCertInfo now) := by
  induction bags with
  | nil => intro acc; simp
  | cons b rest ih =>
      intro acc
      cases hb : b.cert <;>
        simp [certPush, hb, List.filterMap_cons, ih]

/-! ## Claim theorems -/

/-- Claim C7: on a successful parse, the certificate records are
exactly the extracted records of the cert bags that carry an X.509
certificate, in the container's original bag order. -/
theorem certificates_preserve_bag_order (now : Int) (p12 : Pkcs12Bags) :
    (parsePfx now (.ok p12)).certificates
      = (p12.certBags.filterMap CertBag.cert).map (extractCertInfo now) := by
  obtain ⟨cb, skb, pkb⟩ := p12
  cases skb <;> cases pkb <;> simp [parsePfx, certPush_foldl]

/-- Claim C8: every failed parse returns a record with no certificates,
no private key and an error set; in particular the (spec-modelled)
empty-buffer decode failure yields the generic malformed outcome, never
a success. -/
theorem failed_parse_yields_empty (now : Int) (msg : String) :
    (parsePfx now (.err msg)).certificates = []
    ∧ (parsePfx now (.err msg)).hasPrivateKey = false
    ∧ (parsePfx now (.err msg)).privateKeyInfo = none
    ∧ (parsePfx now (.err msg)).error.isSome = true
    ∧ parsePfx now (.err emptyBufferDecodeMessage)
        = { certificates := [], hasPrivateKey := false, privateKeyInfo := none,
            error := some (genericFailureMessage emptyBufferDecodeMessage) } := by
  have hm : isPasswordError emptyBufferDecodeMessage = false := by decide
  cases hp : isPasswordError msg <;> simp [parsePfx, hp, hm]

/-- Claim C1 (amended): exactly one private key summary is reported no
matter how many key bags exist, and only the first-seen bag of each
kind is consulted; but when a plain KeyBag with a decoded key is
present it overwrites the shrouded bag's summary, so the plain bag —
not the first-seen shrouded bag — determines the reported private key
info when both kinds are present. -/
theorem one_private_key_reported (now : Int) (p12 : Pkcs12Bags) :
    (parsePfx now (.ok p12)).hasPrivateKey
        = (!p12.shroudedKeyBags.isEmpty || !p12.plainKeyBags.isEmpty)
    ∧ (parsePfx now (.ok p12)).privateKeyInfo
        = (match p12.plainKeyBags.head? with
           | some kb =>
               (match kb.key with
                | some bits => some ("RSA " ++ toString bits ++ " bits")
                | none => p12.shroudedKeyBags.head?.map shroudedBagInfo)
           | none => p12.shroudedKeyBags.head?.map shroudedBagInfo) := by
  obtain ⟨cb, skb, pkb⟩ := p12
  cases skb with
  | nil =>
      cases pkb with
      | nil => simp [parsePfx]
      | cons kb rest => cases hk : kb.key <;> simp [parsePfx, hk]
  | cons kb1 rest1 =>
      cases pkb with
      | nil => simp [parsePfx]
      | cons kb rest => cases hk : kb.key <;> simp [parsePfx, hk]

/-- Claim C1 counterexample: with a shrouded bag (2048-bit key) and a
plain key bag (1024-bit key) both present, the reported private key
info is the plain bag's, not the first-seen shrouded bag's. -/
theorem shrouded_precedence_cex :
    (parsePfx 0 (.ok p12TwoKeyKinds)).privateKeyInfo = some ("RSA 1024 bits")
    ∧ shroudedBagInfo { key := some 2048 } = "RSA 2048 bits"
    ∧ (parsePfx 0 (.ok p12TwoKeyKinds)).privateKeyInfo
        ≠ some (shroudedBagInfo { key := some 2048 }) := by
  refine ⟨by decide, by decide, by decide⟩

/-- Claim C2: an error whose message signals a MAC or decryption
failure (or names an invalid password) is classified into the
password-centric outcome with the dedicated invalid-password error
text, never the generic malformed text. -/
theorem password_failure_classified (now : Int) (msg : String)
    (h : containsSub ("mac".toList) (toLowerL msg.toList) = true
       ∨ containsSub ("decrypt".toList) (toLowerL msg.toList) = true
       ∨ containsSub ("invalid password".toList) (toLowerL msg.toList) = true) :
    parsePfx now (.err msg)
      = { certificates := [], hasPrivateKey := false, privateKeyInfo := none,
          error := some invalidPasswordMessage }
    ∧ invalidPasswordMessage ≠ genericFailureMessage msg := by
  have hp : isPasswordError msg = true := by
    unfold isPasswordError
    simp only [Bool.or_eq_true]
    rcases h with h | h | h <;> simp at h <;> tauto
  refine ⟨by simp [parsePfx, hp], ?_⟩
  intro hab
  have h1 : invalidPasswordMessage.data.head? = some 'I' := rfl
  have h2 : (genericFailureMessage msg).data.head? = some 'F' := rfl
  rw [hab, h2] at h1
  exact absurd h1 (by simp)

theorem password_failure_classified_witness :
    containsSub ("mac".toList) (toLowerL (macFailureMessage.toList)) = true
    ∧ parsePfx 0 (.err macFailureMessage)
        = { certificates := [], hasPrivateKey := false, privateKeyInfo := none,
            error := some invalidPasswordMessage } :=
  ⟨by decide, (password_failure_classified 0 macFailureMessage (Or.inl (by decide))).1⟩

theorem ceilDiv_day_eq_ceil (a : Int) :
    ceilDiv a 86400000 = ⌈((a : ℚ)) / 86400000⌉ := by
  have h1 : ((a : ℚ)) / 86400000 = -(((-a : ℤ) : ℚ) / ((86400000 : ℕ) : ℚ)) := by
    push_cast; ring
  rw [h1, Int.ceil_neg, Rat.floor_intCast_div_natCast]
  unfold ceilDiv
  push_cast
  omega

/-- Claim C5 (amended): `isExpired` holds exactly when `notAfter` is
strictly before the evaluation instant, and `daysUntilExpiry` is the
ceiling of the real-valued day difference; the signed day count is
nonpositive once expired, and strictly negative once expired by at
least one full day (not immediately upon expiry, as the strict claim
would require). -/
theorem expiry_semantics (cert : ForgeCert) (now : Int) :
    ((extractCertInfo now cert).isExpired = true ↔ cert.notAfter < now)
    ∧ (extractCertInfo now cert).daysUntilExpiry
        = ⌈(((cert.notAfter : ℚ) - (now : ℚ)) / 86400000)⌉
    ∧ (cert.notAfter < now → (extractCertInfo now cert).daysUntilExpiry ≤ 0)
    ∧ (cert.notAfter + 86400000 ≤ now →
        (extractCertInfo now cert).daysUntilExpiry < 0) := by
  refine ⟨?_, ?_, ?_, ?_⟩
  · simp [extractCertInfo]
  · show ceilDiv (cert.notAfter - now) 86400000 = _
    rw [ceilDiv_day_eq_ceil]
    norm_cast
  · intro h
    show ceilDiv (cert.notAfter - now) 86400000 ≤ 0
    unfold ceilDiv
    omega
  · intro h
    show ceilDiv (cert.notAfter - now) 86400000 < 0
    unfold ceilDiv
    omega

theorem expiry_semantics_witness :
    ((certValidTo (-86400000)).notAfter < 0
       ∧ (certValidTo (-86400000)).notAfter + 86400000 ≤ 0)
    ∧ (extractCertInfo 0 (certValidTo (-86400000))).daysUntilExpiry ≤ 0
    ∧ (extractCertInfo 0 (certValidTo (-86400000))).daysUntilExpiry < 0 :=
  ⟨⟨by decide, by decide⟩,
   (expiry_semantics (certValidTo (-86400000)) 0).2.2.1 (by decide),
   (expiry_semantics (certValidTo (-86400000)) 0).2.2.2 (by decide)⟩

/-- Claim C5 counterexample: one millisecond past expiry the code's day
count is 0 — the certificate is expired yet `daysUntilExpiry` is not
negative, refuting "negative once the certificate is expired". -/
theorem expired_day_count_cex :
    (extractCertInfo 0 (certValidTo (-1))).isExpired = true
    ∧ (extractCertInfo 0 (certValidTo (-1))).daysUntilExpiry = 0
    ∧ ¬((extractCertInfo 0 (certValidTo (-1))).daysUntilExpiry < 0) :=
  ⟨by decide, by decide, by decide⟩

/-- Claim C3 (amended): the rendered badge class follows the bands
expired / expiring-soon on `0 ≤ daysUntilExpiry ≤ 30` / valid above 30
(the spec's strict `0 <` lower bound fails only at day count 0, where
the code still shows the expiring-soon badge); a certificate expiring
exactly 30 days out classifies expiring-soon, exactly 31 days out
classifies valid. -/
theorem status_bands (cert : ForgeCert) (now : Int) :
    statusClassOf (extractCertInfo now cert)
        = amendedStatusBand (extractCertInfo now cert)
    ∧ (cert.notAfter = now + 30 * 86400000 →
        statusClassOf (extractCertInfo now cert) = "expiring-soon")
    ∧ (cert.notAfter = now + 31 * 86400000 →
        statusClassOf (extractCertInfo now cert) = "valid") := by
  refine ⟨?_, ?_, ?_⟩
  · by_cases hexp : cert.notAfter < now
    · simp [statusClassOf, amendedStatusBand, extractCertInfo, hexp]
    · have hd : 0 ≤ ceilDiv (cert.notAfter - now) 86400000 := by
        unfold ceilDiv; omega
      by_cases h30 : ceilDiv (cert.notAfter - now) 86400000 ≤ 30 <;>
        simp [statusClassOf, amendedStatusBand, extractCertInfo, hexp, hd, h30]
  · intro h
    have h1 : ¬(cert.notAfter < now) := by omega
    have h2 : ceilDiv (cert.notAfter - now) 86400000 ≤ 30 := by
      unfold ceilDiv; omega
    simp [statusClassOf, extractCertInfo, h1, h2]
  · intro h
    have h1 : ¬(cert.notAfter < now) := by omega
    have h2 : ¬(ceilDiv (cert.notAfter - now) 86400000 ≤ 30) := by
      unfold ceilDiv; omega
    simp [statusClassOf, extractCertInfo, h1, h2]

theorem status_bands_witness :
    ((certValidTo 2592000000).notAfter = 0 + 30 * 86400000
       ∧ statusClassOf (extractCertInfo 0 (certValidTo 2592000000)) = "expiring-soon")
    ∧ ((certValidTo 2678400000).notAfter = 0 + 31 * 86400000
       ∧ statusClassOf (extractCertInfo 0 (certValidTo 2678400000)) = "valid") :=
  ⟨⟨by decide, (status_bands (certValidTo 2592000000) 0).2.1 (by decide)⟩,
   ⟨by decide, (status_bands (certValidTo 2678400000) 0).2.2 (by decide)⟩⟩

/-- Claim C3 counterexample: a certificate whose `notAfter` equals the
evaluation instant (not expired, day count 0) renders the
expiring-soon badge, while the claim's band `0 < daysUntilExpiry ≤ 30`
classifies it valid. -/
theorem status_band_boundary_cex :
    (extractCertInfo 0 (certValidTo 0)).isExpired = false
    ∧ (extractCertInfo 0 (certValidTo 0)).daysUntilExpiry = 0
    ∧ statusClassOf (extractCertInfo 0 (certValidTo 0)) = "expiring-soon"
    ∧ specStatusBand (extractCertInfo 0 (certValidTo 0)) = "valid"
    ∧ statusClassOf (extractCertInfo 0 (certValidTo 0))
        ≠ specStatusBand (extractCertInfo 0 (certValidTo 0)) :=
  ⟨by decide, by decide, by decide, by decide, by decide⟩

theorem lookup_objInsert (m : List (String × String)) (k v n : String) :
    (objInsert m k v).lookup n = if n = k then some v else m.lookup n := by
  induction m with
  | nil =>
      by_cases h : n = k <;>
        · have hb : (n == k) = decide (n = k) := by simp [h]
          simp [objInsert, List.lookup, hb, h]
  | cons hd tl ih =>
      obtain ⟨k', v'⟩ := hd
      by_cases hk : k' = k
      · subst hk
        by_cases hn : n = k' <;>
          · have hb : (n == k') = decide (n = k') := by simp [hn]
            simp [objInsert, List.lookup, hb, hn]
      · by_cases hn : n = k'
        · have hnk : ¬(n = k) := fun hc => hk ((hn.symm.trans hc))
          have hb : (n == k') = true := by simp [hn]
          simp [objInsert, hk, List.lookup, hb, hnk]
        · have hb : (n == k') = false := by simp [hn]
          by_cases hnk : n = k
          · subst hnk
            simp [objInsert, hk, List.lookup, hb, ih]
          · simp [objInsert, hk, List.lookup, hb, hnk, ih]

theorem getLast?_cons_or {α : Type} (x : α) (l : List α) :
    (x :: l).getLast? = Option.or l.getLast? (some x) := by
  induction l generalizing x with
  | nil => simp [Option.or]
  | cons y l' ih =>
      rw [List.getLast?_cons_cons, ih y]
      cases hl : l'.getLast? <;> simp [Option.or, ih, hl]

theorem lookup_buildNameMap_aux (n : String) (attrs : List NameAttr) :
    ∀ m : List (String × String),
      (attrs.foldl (fun m a => objInsert m (resolvedAttrName a) a.value) m).lookup n
        = Option.or
            (((attrs.filter (fun a => resolvedAttrName a == n)).map NameAttr.value).getLast?)
            (m.lookup n) := by
  induction attrs with
  | nil => intro m; simp [Option.or]
  | cons a rest ih =>
      intro m
      simp only [List.foldl_cons]
      rw [ih]
      by_cases h : resolvedAttrName a = n
      · have hb : (resolvedAttrName a == n) = true := by simp [h]
        rw [List.filter_cons, if_pos (by simp [hb])]
        rw [List.map_cons, getLast?_cons_or, lookup_objInsert, if_pos h.symm]
        cases hg : ((rest.filter (fun a => resolvedAttrName a == n)).map NameAttr.value).getLast? <;>
          simp [Option.or]
      · have hb : (resolvedAttrName a == n) = false := by simp [h]
        rw [List.filter_cons, if_neg (by simp [hb])]
        rw [lookup_objInsert, if_neg (fun hc => h hc.symm)]

/-- Claim C6: the subject/issuer projection is single-valued with
last-wins semantics: looking a short name up in the built mapping
yields the value of the last attribute whose resolved name is that
name. -/
theorem name_projection_last_wins (cert : ForgeCert) (now : Int) (n : String) :
    ((extractCertInfo now cert).subject.lookup n
       = ((cert.subjectAttributes.filter (fun a => resolvedAttrName a == n)).map
            NameAttr.value).getLast?)
    ∧ ((extractCertInfo now cert).issuer.lookup n
       = ((cert.issuerAttributes.filter (fun a => resolvedAttrName a == n)).map
            NameAttr.value).getLast?) := by
  constructor <;>
  · show (buildNameMap _).lookup n = _
    unfold buildNameMap
    rw [lookup_buildNameMap_aux]
    cases hg : (_ : List String).getLast? <;> simp [Option.or, List.lookup]

theorem outputBytes_length (st : Sha1State) : (outputBytes st).length = 20 := by
  obtain ⟨a, b, c, d, e⟩ := st
  rfl

theorem sha1_length (m : List Nat) : (sha1 m).length = 20 := by
  unfold sha1
  exact outputBytes_length _

theorem bytesToHexL_length (bs : List Nat) : (bytesToHexL bs).length = 2 * bs.length := by
  induction bs with
  | nil => rfl
  | cons b rest ih =>
      simp [bytesToHexL, byteHex] at ih ⊢
      omega

theorem hexDigitChar_mem (n : Nat) : hexDigitChar n ∈ hexDigitsLower := by
  unfold hexDigitChar
  have h : n % 16 < 16 := Nat.mod_lt _ (by norm_num)
  generalize n % 16 = k at h ⊢
  interval_cases k <;> decide

theorem hexLower_toUpper_mem : ∀ c ∈ hexDigitsLower, c.toUpper ∈ hexDigitsUpper := by
  decide

/-- Claim C4: the thumbprint is independent of the evaluation instant
(so reparsing yields the identical value), equals the upper-cased hex
encoding of the SHA-1 digest of the certificate's re-encoded DER
bytes, and is always exactly 40 hex characters. -/
theorem thumbprint_deterministic_40hex (cert : ForgeCert) (t t' : Int) :
    (extractCertInfo t cert).thumbprint = (extractCertInfo t' cert).thumbprint
    ∧ (extractCertInfo t cert).thumbprint = thumbprintOfDer cert.reencodedDer
    ∧ (extractCertInfo t cert).thumbprint.length = 40
    ∧ ((extractCertInfo t cert).thumbprint.data.all
        (fun c => hexDigitsUpper.contains c)) = true := by
  refine ⟨rfl, rfl, ?_, ?_⟩
  · show (thumbprintOfDer cert.reencodedDer).length = 40
    show ((bytesToHexL (sha1 cert.reencodedDer)).map Char.toUpper).length = 40
    rw [List.length_map, bytesToHexL_length, sha1_length]
  · show (((bytesToHexL (sha1 cert.reencodedDer)).map Char.toUpper).all
        (fun c => hexDigitsUpper.contains c)) = true
    rw [List.all_eq_true]
    intro c hc
    rw [List.mem_map] at hc
    obtain ⟨c0, hc0, rfl⟩ := hc
    have hmem : c0 ∈ hexDigitsLower := by
      unfold bytesToHexL at hc0
      rw [List.mem_flatMap] at hc0
      obtain ⟨b, _, hb⟩ := hc0
      simp [byteHex] at hb
      rcases hb with h | h <;> subst h <;> exact hexDigitChar_mem _
    have hu := hexLower_toUpper_mem c0 hmem
    simpa [List.contains] using hu

theorem extOne_foldl (exts : List ForgeExt) :
    ∀ acc, exts.foldl (fun acc e => acc ++ [extOne e]) acc = acc ++ exts.map extOne := by
  induction exts with
  | nil => intro acc; simp
  | cons e rest ih => intro acc; simp [ih]

/-- Claim C9: every extension yields exactly one extracted entry, in
order (never dropped, never a failure); an extension with no recognized
interpreter (no forge `name`) is surfaced under its dotted-decimal
identifier with the best-effort raw rendering of its value. -/
theorem extensions_never_dropped (exts : List ForgeExt) :
    (extractExtensions exts).length = exts.length
    ∧ (∀ i : Nat, (extractExtensions exts)[i]? = (exts[i]?).map extOne)
    ∧ (∀ e : ForgeExt, e.name = none →
        (extOne e).1 = e.id ∧ (extOne e).2 = rawRendering e.value) := by
  have hmap : extractExtensions exts = exts.map extOne := by
    unfold extractExtensions
    rw [extOne_foldl]
    simp
  refine ⟨by rw [hmap]; simp, ?_, ?_⟩
  · intro i
    rw [hmap]
    simp
  · intro e he
    have hv : extValueString e
        = (match e.value with
           | some (.str s) => s
           | some (.other j) => j
           | none => "\"(complex value)\"") := by
      simp [extValueString, he]
    constructor
    · simp [extOne, jsTruthyS, he]
    · show (if extValueString e == "" then ("(empty)") else extValueString e)
          = rawRendering e.value
      rw [hv]
      cases hval : e.value with
      | none => decide
      | some jv => cases jv <;> simp [rawRendering]

theorem extensions_never_dropped_witness :
    (extractExtensions [extUnrecognized]).length = [extUnrecognized].length
    ∧ (extractExtensions [extUnrecognized])[0]? = ([extUnrecognized][0]?).map extOne
    ∧ ((extOne extUnrecognized).1 = extUnrecognized.id
       ∧ (extOne extUnrecognized).2 = rawRendering extUnrecognized.value) :=
  ⟨(extensions_never_dropped [extUnrecognized]).1,
   (extensions_never_dropped [extUnrecognized]).2.1 0,
   (extensions_never_dropped [extUnrecognized]).2.2 extUnrecognized rfl⟩

theorem escapeHtml_append (a b : List Char) :
    escapeHtml (a ++ b) = escapeHtml a ++ escapeHtml b := by
  simp [escapeHtml, replaceAllC, List.flatMap_append]

theorem escapeHtml_single (x : Char) : escapeHtml [x] = escChar x := by
  by_cases h1 : x = '&'
  · subst h1; decide
  · by_cases h2 : x = '<'
    · subst h2; decide
    · by_cases h3 : x = '>'
      · subst h3; decide
      · by_cases h4 : x = '"'
        · subst h4; decide
        · by_cases h5 : x = '\''
          · subst h5; decide
          · simp [escapeHtml, replaceAllC, escChar, h1, h2, h3, h4, h5]

theorem escapeHtml_cons (x : Char) (l : List Char) :
    escapeHtml (x :: l) = escChar x ++ escapeHtml l := by
  have hsplit : x :: l = [x] ++ l := rfl
  rw [hsplit, escapeHtml_append, escapeHtml_single]

theorem escChar_safe (x : Char) : (escChar x).all htmlSafeChar = true := by
  by_cases h1 : x = '&'
  · subst h1; decide
  · by_cases h2 : x = '<'
    · subst h2; decide
    · by_cases h3 : x = '>'
      · subst h3; decide
      · by_cases h4 : x = '"'
        · subst h4; decide
        · by_cases h5 : x = '\''
          · subst h5; decide
          · simp [escChar, htmlSafeChar, h1, h2, h3, h4, h5]

theorem escapeHtml_no_markup (l : List Char) :
    (escapeHtml l).all htmlSafeChar = true := by
  induction l with
  | nil => decide
  | cons x rest ih =>
      rw [escapeHtml_cons, List.all_append]
      simp [escChar_safe x, ih]

theorem startsWithL_append_self (p t : List Char) : startsWithL p (p ++ t) = true := by
  induction p with
  | nil => rfl
  | cons c cs ih => simp [startsWithL, ih]

theorem ampOk_append_noamp (t : List Char) (ht : ampOk t = true) :
    ∀ a : List Char, a.all (fun c => !(c == '&')) = true → ampOk (a ++ t) = true := by
  intro a
  induction a with
  | nil => intro _; simpa
  | cons c cs ih =>
      intro ha
      simp only [List.all_cons, Bool.and_eq_true] at ha
      obtain ⟨h1, h2⟩ := ha
      have hc : ¬(c = '&') := by simpa using h1
      simp [ampOk, hc, ih h2]

theorem ampOk_amp_block (mid t : List Char)
    (hmid : mid.all (fun c => !(c == '&')) = true)
    (hb : beginsEntity ('&' :: (mid ++ t)) = true)
    (ht : ampOk t = true) : ampOk (('&' :: mid) ++ t) = true := by
  have hsplit : ('&' :: mid) ++ t = '&' :: (mid ++ t) := rfl
  rw [hsplit]
  simp only [ampOk, if_pos rfl, Bool.and_eq_true]
  exact ⟨hb, ampOk_append_noamp t ht mid hmid⟩

theorem ampOk_escChar (x : Char) (t : List Char) (ht : ampOk t = true) :
    ampOk (escChar x ++ t) = true := by
  by_cases h1 : x = '&'
  · subst h1
    have hb : beginsEntity ('&' :: (['a', 'm', 'p', ';'] ++ t)) = true := by
      unfold beginsEntity
      rw [List.any_eq_true]
      exact ⟨"&amp;".toList, by decide, startsWithL_append_self ("&amp;".toList) t⟩
    exact ampOk_amp_block ['a', 'm', 'p', ';'] t (by decide) hb ht
  · by_cases h2 : x = '<'
    · subst h2
      have hb : beginsEntity ('&' :: (['l', 't', ';'] ++ t)) = true := by
        unfold beginsEntity
        rw [List.any_eq_true]
        exact ⟨"&lt;".toList, by decide, startsWithL_append_self ("&lt;".toList) t⟩
      exact ampOk_amp_block ['l', 't', ';'] t (by decide) hb ht
    · by_cases h3 : x = '>'
      · subst h3
        have hb : beginsEntity ('&' :: (['g', 't', ';'] ++ t)) = true := by
          unfold beginsEntity
          rw [List.any_eq_true]
          exact ⟨"&gt;".toList, by decide, startsWithL_append_self ("&gt;".toList) t⟩
        exact ampOk_amp_block ['g', 't', ';'] t (by decide) hb ht
      · by_cases h4 : x = '"'
        · subst h4
          have hb : beginsEntity ('&' :: (['q', 'u', 'o', 't', ';'] ++ t)) = true := by
            unfold beginsEntity
            rw [List.any_eq_true]
            exact ⟨"&quot;".toList, by decide, startsWithL_append_self ("&quot;".toList) t⟩
          exact ampOk_amp_block ['q', 'u', 'o', 't', ';'] t (by decide) hb ht
        · by_cases h5 : x = '\''
          · subst h5
            have hb : beginsEntity ('&' :: (['#', '0', '3', '9', ';'] ++ t)) = true := by
              unfold beginsEntity
              rw [List.any_eq_true]
              exact ⟨"&#039;".toList, by decide, startsWithL_append_self ("&#039;".toList) t⟩
            exact ampOk_amp_block ['#', '0', '3', '9', ';'] t (by decide) hb ht
          · have hx : escChar x = [x] := by
              simp [escChar, h1, h2, h3, h4, h5]
            rw [hx]
            exact ampOk_append_noamp t ht [x] (by simp [h1])

theorem escapeHtml_amp_ok (l : List Char) : ampOk (escapeHtml l) = true := by
  induction l with
  | nil => decide
  | cons x rest ih =>
      rw [escapeHtml_cons]
      exact ampOk_escChar x _ ih

/-- Claim C10: the HTML-escaping function's output never contains a raw
angle bracket or quote character, and every ampersand it emits begins
one of its five entities — certificate-controlled strings cannot inject
markup. -/
theorem escapeHtml_injection_safe (l : List Char) :
    (escapeHtml l).all htmlSafeChar = true ∧ ampOk (escapeHtml l) = true :=
  ⟨escapeHtml_no_markup l, escapeHtml_amp_ok l⟩

end PfxView
